import Mathlib

/-!
Verification of the scheduling core of the GPU cluster simulator
(`simulator/utils.py` and `simulator/rl_helpers.py`).

The Python code is embedded shallowly: job dicts become a `Job` structure
(records built by `_add_job` always carry every field used by the
schedulers), Python ints become `Int`/`Nat`, floats become `Rat`
(all arithmetic performed on the modelled values is exact in the source:
sums, comparisons and integer conversions of trace quantities), and each
randomized primitive takes its random draws as an explicit input stream.
-/

/-- Python `int(x)` on a float/rational: truncation toward zero. -/
def pyTrunc (q : Rat) : Int :=
  q.num.tdiv (q.den : Int)

/-- Python `round(x)`: round half to even (banker's rounding). -/
def pyRound (q : Rat) : Int :=
  let f := ⌊q⌋
  let r := q - (f : Rat)
  if r < 1/2 then f
  else if 1/2 < r then f + 1
  else if f % 2 = 0 then f else f + 1

/-- A canonical job record as produced by `_add_job` (utils.py 88-139).
Numeric ids stand in for the string ids of the trace. `tickets` is the
transient field written later by the Lottery policy (0 before that). -/
structure Job where
  job_id : Nat := 0
  user : Nat := 0
  group : Nat := 0
  num_gpu : Int := 0
  num_cpu : Int := 0
  duration : Int := 1
  size : Int := 0
  submit_time : Int := 1
  num_inst : Int := 1
  on_time : Int := 0
  wasted : Int := 0
  jct : Int := -1
  resource : Int × Int := (0, 0)
  node : Option Nat := none
  group_gpu_dur : Rat := 0
  tickets : Int := 0
  deriving DecidableEq

/-- A raw trace row after Python's float-parsing of its numeric fields;
`none` models a missing key or the empty string (utils.py 102-113). -/
structure RawJob where
  job_id : Nat := 0
  user : Nat := 0
  group : Nat := 0
  duration : Rat := 0
  num_gpu : Option Rat := none
  num_cpu : Option Rat := none
  submit_time : Option Rat := none
  num_inst : Option Rat := none
  group_gpu_dur : Rat := 0

/-- The record built by `_add_job` (utils.py 88-139): `num_gpu`/`num_cpu`
default to 0, otherwise are scaled by 100 and rounded (line 111);
`submit_time`/`num_inst` default to 1, otherwise rounded (line 113);
`duration` is truncated to int (line 116) and floored at 1 (lines 117-118);
`size`, `on_time`, `wasted`, `jct`, `resource` and `node` are the derived
entries of lines 119-124.  The optional duration-estimation block and the
dropped trace-only columns (lines 126-137) are outside every claim and are
not modelled. -/
def add_job_record (r : RawJob) : Job :=
  let num_gpu : Int := match r.num_gpu with | none => 0 | some v => pyRound (100 * v)
  let num_cpu : Int := match r.num_cpu with | none => 0 | some v => pyRound (100 * v)
  let submit_time : Int := match r.submit_time with | none => 1 | some v => pyRound v
  let num_inst : Int := match r.num_inst with | none => 1 | some v => pyRound v
  let d0 : Int := pyTrunc r.duration
  let duration : Int := if d0 ≤ 0 then 1 else d0
  { job_id := r.job_id, user := r.user, group := r.group
    num_gpu := num_gpu, num_cpu := num_cpu, duration := duration
    size := (num_gpu + num_cpu) * duration
    submit_time := submit_time, num_inst := num_inst
    on_time := 0, wasted := 0, jct := -1
    resource := (num_gpu, num_cpu), node := none
    group_gpu_dur := r.group_gpu_dur, tickets := 0 }

/-- `_add_job` appends the built record to the caller's job list (line 139). -/
def add_job (job_list : List Job) (r : RawJob) : List Job :=
  job_list ++ [add_job_record r]

/-- One diagnostic line as emitted by `print_fn` inside `large_job_pruning`. -/
inductive PruneDiag where
  | gpu (job_id : Nat) (was limit : Int)
  | cpu (job_id : Nat) (was limit : Int)
  deriving DecidableEq

/-- The loop body of `large_job_pruning` (utils.py 160-168) for one job:
clamp `num_gpu` then `num_cpu` to the limits, emitting one diagnostic per
clamp.  Records built by `_add_job` always carry both keys, so the
`'num_gpu' in job` membership tests are always true here. -/
def clamp_job (gpu_limit cpu_limit : Int) (j : Job) : Job × List PruneDiag :=
  let s1 :=
    if gpu_limit < j.num_gpu then
      ({ j with num_gpu := gpu_limit }, [PruneDiag.gpu j.job_id j.num_gpu gpu_limit])
    else (j, [])
  let s2 :=
    if cpu_limit < s1.1.num_cpu then
      ({ s1.1 with num_cpu := cpu_limit }, [PruneDiag.cpu s1.1.job_id s1.1.num_cpu cpu_limit])
    else (s1.1, [])
  (s2.1, s1.2 ++ s2.2)

/-- `large_job_pruning` (utils.py 157-169): `None` becomes `[]`, otherwise
every job is clamped in place; the second component gathers the emitted
diagnostics in order. -/
def large_job_pruning (job_list : Option (List Job)) (gpu_limit cpu_limit : Int) :
    List Job × List PruneDiag :=
  match job_list with
  | none => ([], [])
  | some l =>
      (l.map (fun j => (clamp_job gpu_limit cpu_limit j).1),
       l.foldr (fun j acc => (clamp_job gpu_limit cpu_limit j).2 ++ acc) [])

/-- C7: for every raw job row, the record built by `_add_job` satisfies
`duration = int(float(raw_duration))` floored at 1 — hence `duration ≥ 1` —
and `size = (num_gpu + num_cpu) * duration` computed from the
post-normalization resource values; the record is appended to the list. -/
theorem add_job_duration_floor_and_size (r : RawJob) (jl : List Job) :
    (add_job_record r).duration = max 1 (pyTrunc r.duration) ∧
    1 ≤ (add_job_record r).duration ∧
    (add_job_record r).size =
      ((add_job_record r).num_gpu + (add_job_record r).num_cpu) *
        (add_job_record r).duration ∧
    add_job jl r = jl ++ [add_job_record r] := by
  constructor
  · show (if pyTrunc r.duration ≤ 0 then 1 else pyTrunc r.duration) = max 1 (pyTrunc r.duration)
    rcases le_or_lt (pyTrunc r.duration) 0 with h | h
    · rw [if_pos h]; omega
    · rw [if_neg (not_le.mpr h)]; omega
  refine ⟨?_, rfl, rfl⟩
  show (1 : Int) ≤ (if pyTrunc r.duration ≤ 0 then 1 else pyTrunc r.duration)
  rcases le_or_lt (pyTrunc r.duration) 0 with h | h
  · rw [if_pos h]
  · rw [if_neg (not_le.mpr h)]; omega

/-- The clamped record is the input with `num_gpu`/`num_cpu` reduced to the
limits and every other field untouched. -/
theorem clamp_job_fst (g c : Int) (j : Job) :
    (clamp_job g c j).1 =
      { j with num_gpu := min j.num_gpu g, num_cpu := min j.num_cpu c } := by
  rcases lt_or_le g j.num_gpu with h1 | h1 <;> rcases lt_or_le c j.num_cpu with h2 | h2
  · rw [min_eq_right h1.le, min_eq_right h2.le]
    simp [clamp_job, h1, h2]
  · rw [min_eq_right h1.le, min_eq_left h2]
    simp [clamp_job, h1, not_lt.mpr h2]
  · rw [min_eq_left h1, min_eq_right h2.le]
    simp [clamp_job, not_lt.mpr h1, h2]
  · rw [min_eq_left h1, min_eq_left h2]
    simp [clamp_job, not_lt.mpr h1, not_lt.mpr h2]

/-- The diagnostics of one clamped job: one entry per clamped field. -/
theorem clamp_job_diag_length (g c : Int) (j : Job) :
    ((clamp_job g c j).2).length =
      (if g < j.num_gpu then 1 else 0) + (if c < j.num_cpu then 1 else 0) := by
  rcases lt_or_le g j.num_gpu with h1 | h1 <;> rcases lt_or_le c j.num_cpu with h2 | h2
  · simp [clamp_job, h1, h2]
  · simp [clamp_job, h1, not_lt.mpr h2]
  · simp [clamp_job, not_lt.mpr h1, h2]
  · simp [clamp_job, not_lt.mpr h1, not_lt.mpr h2]

/-- C5: after `large_job_pruning` every job satisfies `num_gpu ≤ gpu_limit`
and `num_cpu ≤ cpu_limit`; a field that exceeded its limit is set exactly to
the limit; a job already within both limits is returned unmodified; and one
diagnostic is emitted per clamp. -/
theorem large_job_pruning_clamps (l : List Job) (g c : Int) :
    (large_job_pruning (some l) g c).1 = l.map (fun j => (clamp_job g c j).1) ∧
    (∀ j ∈ (large_job_pruning (some l) g c).1, j.num_gpu ≤ g ∧ j.num_cpu ≤ c) ∧
    (∀ j : Job, g < j.num_gpu → (clamp_job g c j).1.num_gpu = g) ∧
    (∀ j : Job, c < j.num_cpu → (clamp_job g c j).1.num_cpu = c) ∧
    (∀ j : Job, j.num_gpu ≤ g → j.num_cpu ≤ c → (clamp_job g c j).1 = j) ∧
    (∀ j : Job, ((clamp_job g c j).2).length =
      (if g < j.num_gpu then 1 else 0) + (if c < j.num_cpu then 1 else 0)) := by
  refine ⟨rfl, ?_, ?_, ?_, ?_, fun j => clamp_job_diag_length g c j⟩
  · intro j hj
    simp only [large_job_pruning, List.mem_map] at hj
    obtain ⟨j0, -, rfl⟩ := hj
    rw [clamp_job_fst]
    exact ⟨min_le_right _ _, min_le_right _ _⟩
  · intro j h
    rw [clamp_job_fst]
    show min j.num_gpu g = g
    omega
  · intro j h
    rw [clamp_job_fst]
    show min j.num_cpu c = c
    omega
  · intro j h1 h2
    rw [clamp_job_fst, min_eq_left h1, min_eq_left h2]

/-- Concrete job used to instantiate the pruning theorems. -/
def pruneDemo : Job := { job_id := 7, num_gpu := 150, num_cpu := 30, duration := 2, size := 360 }

/-- Witness for C5 at a concrete job exceeding the GPU limit only. -/
theorem large_job_pruning_clamps_witness :
    ((100 : Int) < pruneDemo.num_gpu ∧ (clamp_job 100 200 pruneDemo).1.num_gpu = 100) ∧
    ((clamp_job 100 200 pruneDemo).2).length =
      (if (100 : Int) < pruneDemo.num_gpu then 1 else 0) +
        (if (200 : Int) < pruneDemo.num_cpu then 1 else 0) :=
  ⟨⟨by decide, (large_job_pruning_clamps [pruneDemo] 100 200).2.2.1 pruneDemo (by decide)⟩,
   (large_job_pruning_clamps [pruneDemo] 100 200).2.2.2.2.2 pruneDemo⟩

/-- C6: `large_job_pruning` modifies only `num_gpu` and `num_cpu`: every
other field of every job — in particular `size`, `duration`, `resource`,
`submit_time` — is left unchanged, so after a clamp a job whose `size` was
derived by `_add_job` still equals `(old_num_gpu + old_num_cpu) * duration`
computed from the pre-clamp resource values (`size` is left stale). -/
theorem large_job_pruning_frame (g c : Int) (j : Job) (l : List Job) :
    (large_job_pruning (some l) g c).1 = l.map (fun j0 => (clamp_job g c j0).1) ∧
    (clamp_job g c j).1.job_id = j.job_id ∧
    (clamp_job g c j).1.user = j.user ∧
    (clamp_job g c j).1.group = j.group ∧
    (clamp_job g c j).1.duration = j.duration ∧
    (clamp_job g c j).1.size = j.size ∧
    (clamp_job g c j).1.submit_time = j.submit_time ∧
    (clamp_job g c j).1.num_inst = j.num_inst ∧
    (clamp_job g c j).1.on_time = j.on_time ∧
    (clamp_job g c j).1.wasted = j.wasted ∧
    (clamp_job g c j).1.jct = j.jct ∧
    (clamp_job g c j).1.resource = j.resource ∧
    (clamp_job g c j).1.node = j.node ∧
    (clamp_job g c j).1.group_gpu_dur = j.group_gpu_dur ∧
    (clamp_job g c j).1.tickets = j.tickets ∧
    (j.size = (j.num_gpu + j.num_cpu) * j.duration →
      (clamp_job g c j).1.size = (j.num_gpu + j.num_cpu) * j.duration) := by
  rw [clamp_job_fst]
  exact ⟨rfl, rfl, rfl, rfl, rfl, rfl, rfl, rfl, rfl, rfl, rfl, rfl, rfl, rfl, rfl,
    fun h => h⟩

/-- Witness for C6: the stale-size consequence at a concrete clamped job
(`pruneDemo.size = (150 + 30) * 2 = 360` pre-clamp). -/
theorem large_job_pruning_frame_witness :
    pruneDemo.size = (pruneDemo.num_gpu + pruneDemo.num_cpu) * pruneDemo.duration ∧
    (clamp_job 100 200 pruneDemo).1.size =
      (pruneDemo.num_gpu + pruneDemo.num_cpu) * pruneDemo.duration :=
  ⟨by decide,
   (large_job_pruning_frame 100 200 pruneDemo []).2.2.2.2.2.2.2.2.2.2.2.2.2.2.2 (by decide)⟩

/-- The group keys occurring in the list, in first-occurrence order (the
iteration/creation order of the Python dict built in utils.py 293-296). -/
def group_keys (jl : List Job) : List Nat :=
  jl.foldl (fun acc j => if j.group ∈ acc then acc else acc ++ [j.group]) []

/-- The `gpu_time_used` map as (re-)built at the start of every
`fair_share_group` call: every group occurring in the list maps to 0. -/
def init_group_usage (jl : List Job) : List (Nat × Rat) :=
  (group_keys jl).map (fun g => (g, 0))

/-- Dictionary lookup `gpu_time_used[key]` on the association-list model
(the schedulers only look up keys the map carries). -/
def usage_of (m : List (Nat × Rat)) (g : Nat) : Rat :=
  match m.find? (fun p => p.1 == g) with
  | some p => p.2
  | none => 0

/-- `gpu_time_used[key] += v` on the association-list model. -/
def bump_usage (m : List (Nat × Rat)) (g : Nat) (v : Rat) : List (Nat × Rat) :=
  m.map (fun p => if p.1 == g then (p.1, p.2 + v) else p)

/-- Stable insertion: the inserted element goes before the first element of
equal or larger key, so earlier list elements stay before later equal-key
ones. -/
def insert_by_key (k : Job → Rat) (x : Job) : List Job → List Job
  | [] => [x]
  | y :: ys => if k y < k x then y :: insert_by_key k x ys else x :: y :: ys

/-- Stable ascending sort by key.  Python's `list.sort(key=...)` is also
stable, and a stable comparison sort's output is determined by the key
ordering alone, so this computes the same list. -/
def sort_by_key (k : Job → Rat) : List Job → List Job
  | [] => []
  | x :: xs => insert_by_key k x (sort_by_key k xs)

/-- `fair_share_group` (utils.py 285-304).  `gpu_time_used` is a variable
local to each call; the trailing update loop (lines 302-304) mutates only
that local map, which the function then discards — it is kept here as the
unused `_used` binding to mirror the source. -/
def fair_share_group (job_list : List Job) : List Job :=
  let gpu_time_used := init_group_usage job_list
  let sorted := sort_by_key (fun j => usage_of gpu_time_used j.group) job_list
  let _used := sorted.foldl (fun m j => bump_usage m j.group j.group_gpu_dur) gpu_time_used
  sorted

/-- The user keys occurring in the list, in first-occurrence order. -/
def user_keys (jl : List Job) : List Nat :=
  jl.foldl (fun acc j => if j.user ∈ acc then acc else acc ++ [j.user]) []

/-- The `gpu_time_used` map rebuilt at the start of every `fair_share_user`
call. -/
def init_user_usage (jl : List Job) : List (Nat × Rat) :=
  (user_keys jl).map (fun u => (u, 0))

/-- `fair_share_user` (utils.py 306-320); the update loop adds
`group_gpu_dur` (line 320) to the call-local map, which is discarded. -/
def fair_share_user (job_list : List Job) : List Job :=
  let gpu_time_used := init_user_usage job_list
  let sorted := sort_by_key (fun j => usage_of gpu_time_used j.user) job_list
  let _used := sorted.foldl (fun m j => bump_usage m j.user j.group_gpu_dur) gpu_time_used
  sorted

/-- Looking anything up in a map whose values are all 0 yields 0. -/
theorem usage_of_eq_zero (m : List (Nat × Rat)) (g : Nat)
    (h : ∀ p ∈ m, p.2 = 0) : usage_of m g = 0 := by
  unfold usage_of
  cases hf : m.find? (fun p => p.1 == g) with
  | none => rfl
  | some p => exact h p (List.mem_of_find?_eq_some hf)

/-- Inserting under a constant key puts the element in front. -/
theorem insert_by_key_const (k : Job → Rat) (x : Job)
    (h : ∀ a b : Job, ¬ k a < k b) : ∀ l, insert_by_key k x l = x :: l
  | [] => rfl
  | y :: ys => by simp [insert_by_key, h y x]

/-- Sorting under a constant key is the identity. -/
theorem sort_by_key_const (k : Job → Rat)
    (h : ∀ a b : Job, ¬ k a < k b) : ∀ l, sort_by_key k l = l
  | [] => rfl
  | x :: xs => by
      rw [sort_by_key, sort_by_key_const k h xs, insert_by_key_const k x h xs]

/-- `fair_share_group` never reorders anything: its usage map is rebuilt
with all-zero values on every call, so every sort key is 0. -/
theorem fair_share_group_eq_self (jl : List Job) : fair_share_group jl = jl := by
  unfold fair_share_group
  refine sort_by_key_const _ (fun a b => ?_) jl
  have hz : ∀ g, usage_of (init_group_usage jl) g = 0 := fun g =>
    usage_of_eq_zero _ g (by simp [init_group_usage])
  rw [hz a.group, hz b.group]
  exact lt_irrefl 0

/-- `fair_share_user` never reorders anything either. -/
theorem fair_share_user_eq_self (jl : List Job) : fair_share_user jl = jl := by
  unfold fair_share_user
  refine sort_by_key_const _ (fun a b => ?_) jl
  have hz : ∀ u, usage_of (init_user_usage jl) u = 0 := fun u =>
    usage_of_eq_zero _ u (by simp [init_user_usage])
  rw [hz a.user, hz b.user]
  exact lt_irrefl 0

/-- Two groups with equal (zero) initial usage and distinct durations. -/
def fsDemoA : Job := { job_id := 1, group := 1, user := 1, group_gpu_dur := 5 }

/-- Second demo consumer: a different group with the smaller duration. -/
def fsDemoB : Job := { job_id := 2, group := 2, user := 2, group_gpu_dur := 3 }

/-- C1 (code bug): the accumulated-usage map of `fair_share_group` /
`fair_share_user` is a call-local variable rebuilt with all-zero values on
every call, so every job's sort key is 0 and both functions return the job
list unchanged.  In particular, after scheduling `fsDemoA` (5 time-units)
and `fsDemoB` (3 time-units), a second call still leaves the
larger-usage group `fsDemoA` in front: no usage persists across calls and
priority never rotates, contradicting the documented fair-share intent. -/
theorem fair_share_usage_resets_every_call :
    (∀ jl, fair_share_group jl = jl) ∧ (∀ jl, fair_share_user jl = jl) ∧
    fair_share_group (fair_share_group [fsDemoA, fsDemoB]) = [fsDemoA, fsDemoB] ∧
    fsDemoA.group ≠ fsDemoB.group ∧ fsDemoB.group_gpu_dur < fsDemoA.group_gpu_dur :=
  ⟨fair_share_group_eq_self, fair_share_user_eq_self,
   by rw [fair_share_group_eq_self, fair_share_group_eq_self],
   by decide, by norm_num [fsDemoA, fsDemoB]⟩

/-- An `Experience` tuple (rl_helpers.py 23): immutable transition record. -/
structure Experience where
  state : List Rat
  action : Nat
  reward : Rat
  next_state : List Rat
  done : Bool
  deriving DecidableEq

/-- `ReplayBuffer` (rl_helpers.py 26-50): `memory` is a
`deque(maxlen=buffer_size)` held oldest-first; `capacity` is that `maxlen`. -/
structure ReplayBuffer where
  action_size : Nat
  capacity : Nat
  memory : List Experience
  batch_size : Nat
  seed : Nat

/-- `ReplayBuffer.__init__`: empty deque of the given `maxlen`. -/
def mkReplayBuffer (action_size buffer_size batch_size seed : Nat) : ReplayBuffer :=
  { action_size := action_size, capacity := buffer_size, memory := []
    batch_size := batch_size, seed := seed }

/-- `ReplayBuffer.add` (rl_helpers.py 34-36): `deque.append` — append on the
right, and drop from the left whatever exceeds `maxlen`. -/
def ReplayBuffer.add (rb : ReplayBuffer) (e : Experience) : ReplayBuffer :=
  { rb with memory := (rb.memory ++ [e]).drop ((rb.memory ++ [e]).length - rb.capacity) }

/-- `ReplayBuffer.__len__` (rl_helpers.py 49-50). -/
def ReplayBuffer.len (rb : ReplayBuffer) : Nat :=
  rb.memory.length

/-- Hyperparameter `BUFFER_SIZE = int(1e5)` (rl_helpers.py 121). -/
def BUFFER_SIZE : Nat := 100000

/-- Hyperparameter `BATCH_SIZE = 64` (rl_helpers.py 122). -/
def BATCH_SIZE : Nat := 64

/-- Hyperparameter `UPDATE_EVERY = 4` (rl_helpers.py 126). -/
def UPDATE_EVERY : Nat := 4

/-- The agent state relevant to experience recording and the learning
trigger (rl_helpers.py 53-66).  The two Q-networks and the optimizer take
part only in `learn`'s tensor arithmetic, which no claim involves. -/
structure DQNAgent where
  state_size : Nat
  action_size : Nat
  memory : ReplayBuffer
  t_step : Nat

/-- `DQNAgent.__init__` (rl_helpers.py 54-66): note line 65 constructs the
replay memory with the literal `buffer_size=10000`, not `BUFFER_SIZE`. -/
def mkDQNAgent (state_size action_size seed : Nat) : DQNAgent :=
  { state_size := state_size, action_size := action_size
    memory := mkReplayBuffer action_size 10000 64 seed, t_step := 0 }

/-- The module-level `agent = DQNAgent(state_size=10, action_size=4, seed=0)`
(rl_helpers.py 131-134). -/
def agent : DQNAgent :=
  mkDQNAgent 10 4 0

/-- `DQNAgent.step` (rl_helpers.py 68-78): record the experience, advance the
step counter modulo `UPDATE_EVERY`, and learn when the counter wrapped to 0
and the buffer holds more than `BATCH_SIZE` experiences.  The returned `Bool`
says whether the learning branch ran; `learn` itself (network update) is
outside every claim and is not modelled. -/
def DQNAgent.step (ag : DQNAgent) (e : Experience) : DQNAgent × Bool :=
  let mem := ag.memory.add e
  let t := (ag.t_step + 1) % UPDATE_EVERY
  ({ ag with memory := mem, t_step := t },
   decide (t = 0) && decide (BATCH_SIZE < mem.len))

/-- C3 (code bug): the agent's replay buffer is built with capacity 10000,
not the documented default `BUFFER_SIZE = 1e5 = 100000`: two divergent
constants, as the module-level `agent` shows. -/
theorem dqn_buffer_capacity_mismatch :
    agent.memory.capacity = 10000 ∧ BUFFER_SIZE = 100000 ∧
    (∀ state_size action_size seed : Nat,
      (mkDQNAgent state_size action_size seed).memory.capacity = 10000) ∧
    agent.memory.capacity ≠ BUFFER_SIZE :=
  ⟨rfl, rfl, fun _ _ _ => rfl, by decide⟩

/-- One `add` keeps the deque within its `maxlen`. -/
theorem ReplayBuffer.len_add_le (rb : ReplayBuffer) (e : Experience) :
    (rb.add e).len ≤ rb.capacity := by
  show ((rb.memory ++ [e]).drop ((rb.memory ++ [e]).length - rb.capacity)).length ≤ rb.capacity
  rw [List.length_drop]
  omega

/-- `add` never changes the capacity. -/
theorem ReplayBuffer.capacity_add (rb : ReplayBuffer) (e : Experience) :
    (rb.add e).capacity = rb.capacity := rfl

/-- After any sequence of `add`s the length is within the capacity. -/
theorem ReplayBuffer.len_foldl_le (es : List Experience) (rb : ReplayBuffer)
    (h : rb.len ≤ rb.capacity) :
    (es.foldl ReplayBuffer.add rb).len ≤ (es.foldl ReplayBuffer.add rb).capacity := by
  induction es generalizing rb with
  | nil => exact h
  | cons e es ih =>
      exact ih (rb.add e) (by rw [ReplayBuffer.capacity_add]; exact rb.len_add_le e)

/-- Adding to a full deque drops exactly the head (the oldest element). -/
theorem ReplayBuffer.add_full (rb : ReplayBuffer) (e : Experience)
    (hfull : rb.len = rb.capacity) (hpos : 0 < rb.capacity) :
    (rb.add e).memory = rb.memory.tail ++ [e] := by
  have hf : rb.memory.length = rb.capacity := hfull
  have hlen : (rb.memory ++ [e]).length - rb.capacity = 1 := by
    rw [List.length_append]
    simp
    omega
  show (rb.memory ++ [e]).drop ((rb.memory ++ [e]).length - rb.capacity) = rb.memory.tail ++ [e]
  rw [hlen]
  cases hm : rb.memory with
  | nil => rw [hm] at hf; simp at hf; omega
  | cons x xs => simp [hm]

/-- C8: `len(buffer) ≤ capacity` holds after every sequence of `add`
operations from a fresh buffer, and an `add` on a buffer already at capacity
evicts exactly the oldest experience, preserving the order of the rest
(ring-buffer semantics). -/
theorem replay_buffer_ring (action_size cap batch seed : Nat)
    (es : List Experience) (rb : ReplayBuffer) (e : Experience)
    (hfull : rb.len = rb.capacity) (hpos : 0 < rb.capacity) :
    (es.foldl ReplayBuffer.add (mkReplayBuffer action_size cap batch seed)).len ≤ cap ∧
    (rb.add e).memory = rb.memory.tail ++ [e] ∧
    (rb.add e).len ≤ rb.capacity := by
  refine ⟨?_, rb.add_full e hfull hpos, rb.len_add_le e⟩
  have h0 : (mkReplayBuffer action_size cap batch seed).len ≤
      (mkReplayBuffer action_size cap batch seed).capacity := by
    simp [mkReplayBuffer, ReplayBuffer.len]
  have hcap : ∀ (l : List Experience) (b : ReplayBuffer),
      (l.foldl ReplayBuffer.add b).capacity = b.capacity := by
    intro l
    induction l with
    | nil => intro b; rfl
    | cons x xs ih => intro b; rw [List.foldl_cons, ih, ReplayBuffer.capacity_add]
  have := ReplayBuffer.len_foldl_le es _ h0
  rwa [hcap] at this

/-- A three-element full buffer used to instantiate the C8 theorem. -/
def rbDemo : ReplayBuffer :=
  { action_size := 4, capacity := 3
    memory := [⟨[0], 0, 0, [1], false⟩, ⟨[1], 1, 0, [2], false⟩, ⟨[2], 2, 0, [3], false⟩]
    batch_size := 64, seed := 0 }

/-- A fourth experience pushed into the full demo buffer. -/
def expDemo : Experience := ⟨[3], 3, 1, [4], true⟩

/-- Witness for C8: adding to the full 3-slot buffer evicts its oldest
entry. -/
theorem replay_buffer_ring_witness :
    (List.replicate 5 expDemo |>.foldl ReplayBuffer.add (mkReplayBuffer 4 3 64 0)).len ≤ 3 ∧
    (rbDemo.add expDemo).memory = rbDemo.memory.tail ++ [expDemo] ∧
    (rbDemo.add expDemo).len ≤ rbDemo.capacity :=
  replay_buffer_ring 4 3 64 0 (List.replicate 5 expDemo) rbDemo expDemo (by decide) (by decide)

/-- C9: `DQNAgent.step` always records the given experience (it becomes the
newest element of the replay memory), advances the step counter modulo
`UPDATE_EVERY = 4`, and runs the learning branch iff the counter wrapped to 0
and the buffer then holds more than `BATCH_SIZE = 64` experiences; with
fewer than one batch's worth the branch is skipped, no error raised. -/
theorem dqn_step_trigger (ag : DQNAgent) (e : Experience)
    (hpos : 0 < ag.memory.capacity) :
    (ag.step e).1.memory = ag.memory.add e ∧
    (ag.step e).1.memory.memory.getLast? = some e ∧
    (ag.step e).1.t_step = (ag.t_step + 1) % UPDATE_EVERY ∧
    ((ag.step e).2 = true ↔
      ((ag.t_step + 1) % UPDATE_EVERY = 0 ∧ BATCH_SIZE < (ag.memory.add e).len)) ∧
    ((ag.memory.add e).len < BATCH_SIZE → (ag.step e).2 = false) := by
  refine ⟨rfl, ?_, rfl, ?_, ?_⟩
  · show ((ag.memory.memory ++ [e]).drop
      ((ag.memory.memory ++ [e]).length - ag.memory.capacity)).getLast? = some e
    have hd : (ag.memory.memory ++ [e]).length - ag.memory.capacity ≤
        ag.memory.memory.length := by
      rw [List.length_append]
      simp
      omega
    rw [List.drop_append_of_le_length hd]
    exact List.getLast?_concat _
  · show (decide ((ag.t_step + 1) % UPDATE_EVERY = 0) &&
      decide (BATCH_SIZE < (ag.memory.add e).len)) = true ↔ _
    simp [Bool.and_eq_true, decide_eq_true_iff]
  · intro h
    show (decide ((ag.t_step + 1) % UPDATE_EVERY = 0) &&
      decide (BATCH_SIZE < (ag.memory.add e).len)) = false
    have hn : ¬ BATCH_SIZE < (ag.memory.add e).len := by omega
    simp [hn]

/-- Witness for C9 on the module-level `agent`: the experience lands in the
buffer, the counter advances, and with a single stored experience (fewer
than one batch) the learning branch is skipped. -/
theorem dqn_step_trigger_witness :
    0 < agent.memory.capacity ∧
    (agent.step expDemo).1.t_step = (agent.t_step + 1) % UPDATE_EVERY ∧
    (agent.step expDemo).1.memory.memory.getLast? = some expDemo ∧
    (agent.step expDemo).2 = false :=
  ⟨by decide, (dqn_step_trigger agent expDemo (by decide)).2.2.1,
   (dqn_step_trigger agent expDemo (by decide)).2.1,
   (dqn_step_trigger agent expDemo (by decide)).2.2.2.2 (by decide)⟩

/-- `np.argmax` helper: scan for the first index holding the maximum. -/
def argmaxGo (i best : Nat) (bv : Rat) : List Rat → Nat
  | [] => best
  | v :: vs => if bv < v then argmaxGo (i + 1) i v vs else argmaxGo (i + 1) best bv vs

/-- `np.argmax` over the action-value vector: index of the first occurrence
of the maximum value. -/
def argmaxIdx : List Rat → Nat
  | [] => 0
  | v :: vs => argmaxGo 1 0 v vs

/-- `DQNAgent.act` (rl_helpers.py 80-92).  The local network's forward pass
for the given state is abstracted as the action-value vector it returns
(`action_values`); `draw` is the value of `random.random()`, which lies in
`[0, 1)`; `choice` is the member of `np.arange(action_size)` that
`random.choice` would return.  The branch condition is line 89:
`random.random() > eps`. -/
def agent_act (action_values : List Rat) (eps draw : Rat) (choice : Nat) : Nat :=
  if eps < draw then argmaxIdx action_values else choice

/-- C4 counterexample: with `eps = 0` the guard is `draw > 0`, and
`random.random()` can return exactly 0, in which case `act` takes the
uniform-random branch instead of the argmax — here returning action 0 even
though the argmax action is 1. -/
theorem agent_act_eps_zero_not_always_argmax :
    (0 : Rat) ≤ 0 ∧ (0 : Rat) < 1 ∧
    agent_act [0, 1] 0 0 0 = 0 ∧ argmaxIdx [0, 1] = 1 ∧
    agent_act [0, 1] 0 0 0 ≠ argmaxIdx [0, 1] := by
  decide

/-- C4 (amended): for every action-value vector and every possible value of
the uniform draw, `act` with `eps = 0` returns the argmax action whenever
the draw is strictly positive (the draw 0, a possible `random.random()`
output, falls to the random branch instead), and with `eps = 1` it always
returns the uniformly drawn member of the action space. -/
theorem agent_act_eps_greedy (values : List Rat) (draw : Rat) (choice : Nat)
    (h0 : 0 ≤ draw) (h1 : draw < 1) :
    (0 < draw → agent_act values 0 draw choice = argmaxIdx values) ∧
    agent_act values 1 draw choice = choice := by
  constructor
  · intro hp
    rw [agent_act, if_pos hp]
  · rw [agent_act, if_neg (not_lt.mpr h1.le)]

/-- Witness for C4 (amended) at draw 1/2. -/
theorem agent_act_eps_greedy_witness :
    ((0 : Rat) ≤ 1/2 ∧ (1/2 : Rat) < 1) ∧
    agent_act [0, 1] 0 (1/2) 3 = argmaxIdx [0, 1] ∧
    agent_act [0, 1] 1 (1/2) 3 = 3 :=
  ⟨⟨by norm_num, by norm_num⟩,
   (agent_act_eps_greedy [0, 1] (1/2) 3 (by norm_num) (by norm_num)).1 (by norm_num),
   (agent_act_eps_greedy [0, 1] (1/2) 3 (by norm_num) (by norm_num)).2⟩

/-- `assign_tickets` (utils.py 249-251) at the default `weight_factor = 1`:
`max(int(job['group_gpu_dur'] * weight_factor), 1)`. -/
def assign_tickets (j : Job) : Int :=
  max (pyTrunc (j.group_gpu_dur * 1)) 1

/-- The ticket-assignment loop of `lottery_sort` (utils.py 259-262): write a
`tickets` entry into every job. -/
def with_tickets (jl : List Job) : List Job :=
  jl.map (fun j => { j with tickets := assign_tickets j })

/-- Running prefix sums, as accumulated into `cumulative_tickets`
(utils.py 259-262). -/
def running_totals (acc : Int) : List Int → List Int
  | [] => []
  | t :: ts => (acc + t) :: running_totals (acc + t) ts

/-- Position of the first entry `≥ w`: the model of
`next(index for index, cumul in enumerate(cumulative_tickets) if cumul >= winning_ticket)`
(utils.py 272); `none` models the raised `StopIteration`. -/
def firstIdxGe (w : Int) : List Int → Option Nat
  | [] => none
  | c :: cs => if w ≤ c then some 0 else (firstIdxGe w cs).map (· + 1)

/-- Subtract `d` from the entries at positions `i..k`, where `j` is the
position of the list head: the model of the update loop
`for j in range(i, winning_index + 1): cumulative_tickets[j] -= diff`
(utils.py 280-281). -/
def subIdxRange (d : Int) (i k : Nat) : Nat → List Int → List Int
  | _, [] => []
  | j, c :: cs => (if i ≤ j ∧ j ≤ k then c - d else c) :: subIdxRange d i k (j + 1) cs

/-- The state of the `lottery_sort` selection loop: the job list, the
cumulative-ticket array and the remaining ticket total.  `trace` records
each iteration's `(position, winning_index)` pair for analysis only; it has
no effect on the computation. -/
structure LotteryState where
  jl : List Job
  cum : List Int
  total : Int
  trace : List (Nat × Nat)

/-- The winning index of the draw at iteration `i`:
`winning_ticket = random.randint(1, total_tickets)` (utils.py 269) is
modelled as `1 + draws i % total` — every value of `[1, total]` is reachable,
matching `randint`'s support — followed by the generator search of line 272. -/
def lottery_win_index (draws : Nat → Nat) (i : Nat) (s : LotteryState) : Option Nat :=
  firstIdxGe (1 + (draws i : Int) % s.total) s.cum

/-- The state after the loop body of iteration `i` selected the winner at
index `k` (utils.py 274-282): swap positions `i` and `k`, subtract the
winner's (`jk`'s) tickets from the cumulative entries `i..k` when
`i ≠ winning_index`, and deduct them from the running total (after the swap
`job_list[i]` is the winner, so `diff = jk.tickets`). -/
def lottery_next (i k : Nat) (ji jk : Job) (s : LotteryState) : LotteryState :=
  { jl := (s.jl.set i jk).set k ji
    cum := if i = k then s.cum else subIdxRange jk.tickets i k 0 s.cum
    total := s.total - jk.tickets
    trace := s.trace ++ [(i, k)] }

/-- The selection loop of `lottery_sort` (utils.py 264-282): iteration `i`
with `fuel` iterations left (`i + fuel = len(job_list)`), breaking once the
total is exhausted; `none` models a raised exception (`StopIteration` from
the search, or an out-of-range index). -/
def lottery_loop (draws : Nat → Nat) : Nat → Nat → LotteryState → Option LotteryState
  | _, 0, s => some s
  | i, fuel + 1, s =>
    if s.total ≤ 0 then some s
    else
      match lottery_win_index draws i s with
      | none => none
      | some k =>
        match s.jl[i]?, s.jl[k]? with
        | some ji, some jk => lottery_loop draws (i + 1) fuel (lottery_next i k ji jk s)
        | _, _ => none

/-- The initial loop state of a `lottery_sort` run (utils.py 256-262). -/
def lottery_start (jl : List Job) : LotteryState :=
  { jl := with_tickets jl
    cum := running_totals 0 ((with_tickets jl).map Job.tickets)
    total := ((with_tickets jl).map Job.tickets).sum
    trace := [] }

/-- `lottery_sort` (utils.py 253-282): assign tickets, build the cumulative
array and the total, run the selection loop, and return the final job
list (`none` models a raised exception). -/
def lottery_sort (jl : List Job) (draws : Nat → Nat) : Option (List Job) :=
  (lottery_loop draws 0 jl.length (lottery_start jl)).map LotteryState.jl

/-- The `(position, winning_index)` pairs drawn along a `lottery_sort`
run. -/
def lottery_trace (jl : List Job) (draws : Nat → Nat) : Option (List (Nat × Nat)) :=
  (lottery_loop draws 0 jl.length (lottery_start jl)).map LotteryState.trace

/-- The cumulative array has one entry per summand. -/
theorem running_totals_length (l : List Int) : ∀ acc : Int,
    (running_totals acc l).length = l.length := by
  induction l with
  | nil => intro acc; rfl
  | cons t ts ih => intro acc; simp [running_totals, ih]

/-- The last cumulative entry is the grand total. -/
theorem running_totals_getLast? : ∀ (l : List Int) (acc : Int), l ≠ [] →
    (running_totals acc l).getLast? = some (acc + l.sum)
  | [], _, h => absurd rfl h
  | [t], acc, _ => by simp [running_totals]
  | t :: t' :: ts, acc, _ => by
      have ih := running_totals_getLast? (t' :: ts) (acc + t) (by simp)
      show ((acc + t) :: running_totals (acc + t) (t' :: ts)).getLast? = _
      show ((acc + t) :: (acc + t + t') :: running_totals (acc + t + t') ts).getLast? = _
      rw [List.getLast?_cons_cons]
      have ih' : ((acc + t + t') :: running_totals (acc + t + t') ts).getLast? =
          some (acc + t + (t' :: ts).sum) := ih
      rw [ih']
      simp [add_assoc]

/-- A found first index is in range. -/
theorem firstIdxGe_lt_length (w : Int) : ∀ (l : List Int) (k : Nat),
    firstIdxGe w l = some k → k < l.length
  | [], k, h => by simp [firstIdxGe] at h
  | c :: cs, k, h => by
      rw [firstIdxGe] at h
      by_cases hc : w ≤ c
      · rw [if_pos hc] at h
        cases h
        simp
      · rw [if_neg hc] at h
        cases hk : firstIdxGe w cs with
        | none => rw [hk] at h; simp at h
        | some k' =>
            rw [hk] at h
            simp only [Option.map_some'] at h
            cases h
            have := firstIdxGe_lt_length w cs k' hk
            simp
            omega

/-- If the last entry is at least `w`, the search succeeds. -/
theorem firstIdxGe_isSome (w : Int) : ∀ (l : List Int) (c : Int),
    l.getLast? = some c → w ≤ c → (firstIdxGe w l).isSome
  | [], c, hc, _ => by simp at hc
  | [x], c, hc, hw => by
      simp at hc
      rw [firstIdxGe, if_pos (hc ▸ hw)]
      rfl
  | x :: y :: ys, c, hc, hw => by
      rw [List.getLast?_cons_cons] at hc
      rw [firstIdxGe]
      by_cases hx : w ≤ x
      · rw [if_pos hx]; rfl
      · rw [if_neg hx]
        simp only [Option.isSome_map']
        exact firstIdxGe_isSome w (y :: ys) c hc hw

/-- The range subtraction keeps the length. -/
theorem subIdxRange_length (d : Int) (i k : Nat) : ∀ (j : Nat) (l : List Int),
    (subIdxRange d i k j l).length = l.length
  | _, [] => rfl
  | j, c :: cs => by simp [subIdxRange, subIdxRange_length d i k (j + 1) cs]

/-- The last entry after the range subtraction: reduced by `d` exactly when
the last position falls inside `[i, k]`. -/
theorem subIdxRange_getLast? (d : Int) (i k : Nat) : ∀ (j : Nat) (l : List Int) (c : Int),
    l.getLast? = some c →
    (subIdxRange d i k j l).getLast? =
      some (if i ≤ j + l.length - 1 ∧ j + l.length - 1 ≤ k then c - d else c)
  | j, [], c, hc => by simp at hc
  | j, [x], c, hc => by
      simp at hc
      subst hc
      simp [subIdxRange]
  | j, x :: y :: ys, c, hc => by
      rw [List.getLast?_cons_cons] at hc
      have ih := subIdxRange_getLast? d i k (j + 1) (y :: ys) c hc
      show ((if i ≤ j ∧ j ≤ k then x - d else x) ::
        subIdxRange d i k (j + 1) (y :: ys)).getLast? = _
      cases hs : subIdxRange d i k (j + 1) (y :: ys) with
      | nil => rw [hs] at ih; simp at ih
      | cons z zs =>
          rw [hs] at ih
          rw [List.getLast?_cons_cons, ih]
          have he : j + 1 + (y :: ys).length - 1 = j + (x :: y :: ys).length - 1 := by
            simp
            omega
          rw [he]

/-- Prepending the overwritten element of a `set` keeps the multiset. -/
theorem cons_get_set_perm {α : Type} (x : α) : ∀ (l : List α) (m : Nat) (b : α),
    l[m]? = some b → (b :: l.set m x).Perm (x :: l)
  | [], m, b, h => by simp at h
  | y :: ys, 0, b, h => by
      obtain rfl : y = b := by simpa using h
      exact List.Perm.swap x y ys
  | y :: ys, m + 1, b, h => by
      simp only [List.getElem?_cons_succ] at h
      show (b :: y :: ys.set m x).Perm (x :: y :: ys)
      exact ((List.Perm.swap y b (ys.set m x)).trans
        ((cons_get_set_perm x ys m b h).cons y)).trans (List.Perm.swap x y ys)

/-- The double `set` performing the swap of positions `i` and `k` is a
permutation. -/
theorem set_set_perm {α : Type} : ∀ (l : List α) (i k : Nat) (a b : α),
    l[i]? = some a → l[k]? = some b → ((l.set i b).set k a).Perm l
  | [], _, _, _, _, hi, _ => by simp at hi
  | z :: zs, 0, 0, a, b, hi, hk => by
      obtain rfl : z = a := by simpa using hi
      show (z :: zs).Perm (z :: zs)
      exact List.Perm.refl _
  | z :: zs, 0, m + 1, a, b, hi, hk => by
      obtain rfl : z = a := by simpa using hi
      simp only [List.getElem?_cons_succ] at hk
      show (b :: zs.set m z).Perm (z :: zs)
      exact cons_get_set_perm z zs m b hk
  | z :: zs, n + 1, 0, a, b, hi, hk => by
      obtain rfl : z = b := by simpa using hk
      simp only [List.getElem?_cons_succ] at hi
      show (a :: zs.set n z).Perm (z :: zs)
      exact cons_get_set_perm z zs n a hi
  | z :: zs, n + 1, m + 1, a, b, hi, hk => by
      simp only [List.getElem?_cons_succ] at hi hk
      show (z :: (zs.set n b).set m a).Perm (z :: zs)
      exact (set_set_perm zs n m a b hi hk).cons z

/-- Invariant of the selection loop: the cumulative array tracks the job
list's length, every job carries at least one ticket, and the last
cumulative entry bounds the remaining total from above. -/
def LotteryInv (s : LotteryState) : Prop :=
  s.cum.length = s.jl.length ∧
  (∀ j ∈ s.jl, 1 ≤ j.tickets) ∧
  (∀ c : Int, s.cum.getLast? = some c → s.total ≤ c)

/-- One loop body keeps the last cumulative entry at or above the new
total: the last entry is reduced by the winner's tickets exactly when the
update range reaches it, while the total always is. -/
theorem lottery_next_last_bound (i k : Nat) (s : LotteryState) (ji jk : Job) (c : Int)
    (htk : 1 ≤ jk.tickets) (hc : s.cum.getLast? = some c) (hcle : s.total ≤ c) :
    ∀ c' : Int, (lottery_next i k ji jk s).cum.getLast? = some c' →
      (lottery_next i k ji jk s).total ≤ c' := by
  intro c' hc'
  show s.total - jk.tickets ≤ c'
  by_cases hik : i = k
  · have hcc : s.cum.getLast? = some c' := by
      simpa [lottery_next, hik] using hc'
    rw [hc] at hcc
    cases hcc
    omega
  · have h2 := subIdxRange_getLast? jk.tickets i k 0 s.cum c hc
    have hcc : (subIdxRange jk.tickets i k 0 s.cum).getLast? = some c' := by
      simpa [lottery_next, hik] using hc'
    rw [h2] at hcc
    by_cases hcond : i ≤ 0 + s.cum.length - 1 ∧ 0 + s.cum.length - 1 ≤ k
    · rw [if_pos hcond] at hcc
      cases hcc
      omega
    · rw [if_neg hcond] at hcc
      cases hcc
      omega

/-- One loop body keeps the cumulative array's length. -/
theorem lottery_next_cum_length (i k : Nat) (s : LotteryState) (ji jk : Job) :
    (lottery_next i k ji jk s).cum.length = s.cum.length := by
  show (if i = k then s.cum else subIdxRange jk.tickets i k 0 s.cum).length = _
  by_cases hik : i = k
  · rw [if_pos hik]
  · rw [if_neg hik, subIdxRange_length]

/-- The selection loop never raises and permutes the job list, as long as
the invariant holds and the fuel matches the remaining positions. -/
theorem lottery_loop_total (draws : Nat → Nat) : ∀ (fuel i : Nat) (s : LotteryState),
    LotteryInv s → i + fuel = s.jl.length →
    ∃ s', lottery_loop draws i fuel s = some s' ∧ s'.jl.Perm s.jl := by
  intro fuel
  induction fuel with
  | zero =>
      intro i s _ _
      exact ⟨s, rfl, List.Perm.refl _⟩
  | succ fuel ih =>
      intro i s hinv hlen
      by_cases ht : s.total ≤ 0
      · refine ⟨s, ?_, List.Perm.refl _⟩
        simp [lottery_loop, ht]
      · push_neg at ht
        obtain ⟨hlc, htk, hbound⟩ := hinv
        have hjl_pos : 0 < s.jl.length := by omega
        have hcum_ne : s.cum ≠ [] := by
          intro h0
          rw [h0] at hlc
          simp at hlc
          omega
        obtain ⟨c, hc⟩ := Option.isSome_iff_exists.mp (List.getLast?_isSome.mpr hcum_ne)
        have hcle : s.total ≤ c := hbound c hc
        have hw_le : 1 + (draws i : Int) % s.total ≤ s.total := by
          have := Int.emod_lt_of_pos (draws i : Int) ht
          omega
        have hw : (firstIdxGe (1 + (draws i : Int) % s.total) s.cum).isSome :=
          firstIdxGe_isSome _ s.cum c hc (le_trans hw_le hcle)
        obtain ⟨k, hk⟩ := Option.isSome_iff_exists.mp hw
        have hwin : lottery_win_index draws i s = some k := hk
        have hk_lt : k < s.jl.length := hlc ▸ firstIdxGe_lt_length _ s.cum k hk
        have hi_lt : i < s.jl.length := by omega
        have hji : s.jl[i]? = some s.jl[i] := List.getElem?_eq_getElem hi_lt
        have hjk : s.jl[k]? = some s.jl[k] := List.getElem?_eq_getElem hk_lt
        have hperm1 : ((s.jl.set i s.jl[k]).set k s.jl[i]).Perm s.jl :=
          set_set_perm s.jl i k s.jl[i] s.jl[k] hji hjk
        have hmem_jk : s.jl[k] ∈ s.jl := List.getElem_mem hk_lt
        have htk_jk : 1 ≤ (s.jl[k]).tickets := htk _ hmem_jk
        have hinv1 : LotteryInv (lottery_next i k s.jl[i] s.jl[k] s) := by
          refine ⟨?_, ?_, ?_⟩
          · rw [lottery_next_cum_length]
            show s.cum.length = ((s.jl.set i s.jl[k]).set k s.jl[i]).length
            simp [hlc]
          · intro j hj
            exact htk j (hperm1.mem_iff.mp hj)
          · exact lottery_next_last_bound i k s _ _ c htk_jk hc hcle
        have hlen1 : (i + 1) + fuel = (lottery_next i k s.jl[i] s.jl[k] s).jl.length := by
          show _ = ((s.jl.set i s.jl[k]).set k s.jl[i]).length
          simp
          omega
        obtain ⟨s', hs', hp'⟩ := ih (i + 1) _ hinv1 hlen1
        refine ⟨s', ?_, hp'.trans hperm1⟩
        rw [lottery_loop, if_neg (not_le.mpr ht), hwin]
        simp only [hji, hjk]
        exact hs'

/-- C10: `lottery_sort` is total on every job list: every assigned ticket
count is at least 1, every draw happens under the guard `total > 0` and the
last cumulative entry stays at or above the total, so the search for the
first cumulative entry `≥` the drawn ticket always finds an index, the loop
terminates without raising, and the final list is a permutation of the
(ticket-carrying) input. -/
theorem lottery_sort_total_and_perm (jl : List Job) (draws : Nat → Nat) :
    (∀ j : Job, 1 ≤ assign_tickets j) ∧
    ∃ out, lottery_sort jl draws = some out ∧ out.Perm (with_tickets jl) := by
  constructor
  · intro j
    exact le_max_right _ _
  · have hinv : LotteryInv (lottery_start jl) := by
      refine ⟨?_, ?_, ?_⟩
      · show (running_totals 0 ((with_tickets jl).map Job.tickets)).length =
          (with_tickets jl).length
        rw [running_totals_length, List.length_map]
      · intro j hj
        simp only [lottery_start, with_tickets, List.mem_map] at hj
        obtain ⟨j0, -, rfl⟩ := hj
        exact le_max_right _ _
      · intro c hc
        cases jl with
        | nil => simp [lottery_start, with_tickets, running_totals] at hc
        | cons x xs =>
            have hne : ((with_tickets (x :: xs)).map Job.tickets) ≠ [] := by
              simp [with_tickets]
            have hlast := running_totals_getLast?
              ((with_tickets (x :: xs)).map Job.tickets) 0 hne
            have hc' : (running_totals 0
                ((with_tickets (x :: xs)).map Job.tickets)).getLast? = some c := hc
            rw [hlast] at hc'
            injection hc' with hc2
            show ((with_tickets (x :: xs)).map Job.tickets).sum ≤ c
            omega
    have hlen : 0 + jl.length = (lottery_start jl).jl.length := by
      show 0 + jl.length = (with_tickets jl).length
      simp [with_tickets]
    obtain ⟨s', hs', hp⟩ := lottery_loop_total draws jl.length 0 (lottery_start jl) hinv hlen
    refine ⟨s'.jl, ?_, hp⟩
    show (lottery_loop draws 0 jl.length (lottery_start jl)).map LotteryState.jl = some s'.jl
    rw [hs']
    rfl

/-- First demo job for the lottery counterexample: one ticket. -/
def lotDemoA : Job := { job_id := 1, group_gpu_dur := 1 }

/-- Second demo job for the lottery counterexample: one ticket. -/
def lotDemoB : Job := { job_id := 2, group_gpu_dur := 1 }

/-- Demo random stream: `randint(1, total)` always lands on ticket 1. -/
def zero_draws : Nat → Nat := fun _ => 0

/-- `lotDemoA` after ticket assignment. -/
def lotDemoA' : Job := { lotDemoA with tickets := 1 }

/-- `lotDemoB` after ticket assignment. -/
def lotDemoB' : Job := { lotDemoB with tickets := 1 }

/-- The demo run's initial state, evaluated: one ticket each, cumulative
array `[1, 2]`, total 2. -/
theorem lottery_demo_start :
    lottery_start [lotDemoA, lotDemoB] =
      { jl := [lotDemoA', lotDemoB'], cum := [1, 2], total := 2, trace := [] } := by
  have hta : assign_tickets lotDemoA = 1 := by
    norm_num [assign_tickets, lotDemoA, pyTrunc]
  have htb : assign_tickets lotDemoB = 1 := by
    norm_num [assign_tickets, lotDemoB, pyTrunc]
  have hwt : with_tickets [lotDemoA, lotDemoB] = [lotDemoA', lotDemoB'] := by
    show [({ lotDemoA with tickets := assign_tickets lotDemoA } : Job),
      ({ lotDemoB with tickets := assign_tickets lotDemoB } : Job)] = _
    rw [hta, htb]
    rfl
  show LotteryState.mk (with_tickets [lotDemoA, lotDemoB])
      (running_totals 0 ((with_tickets [lotDemoA, lotDemoB]).map Job.tickets))
      (((with_tickets [lotDemoA, lotDemoB]).map Job.tickets).sum) [] = _
  rw [hwt]
  have hmap : [lotDemoA', lotDemoB'].map Job.tickets = [1, 1] := rfl
  rw [hmap]
  norm_num [LotteryState.mk.injEq, running_totals]

/-- C2 counterexample: on two one-ticket jobs with every winning ticket
drawn as 1, iteration 0 selects winning index 0 (equal to the position, so
the `i != winning_index` guard skips the cumulative update), and iteration 1
then locates winning index 0 — an index *before* the current position 1 —
re-selecting the job already placed at position 0.  The run's
(position, winning_index) trace evaluates to [(0, 0), (1, 0)], whose second
pair violates "the winning index located by any later draw is always ≥ the
current position". -/
theorem lottery_sort_reselects_placed_job :
    lottery_trace [lotDemoA, lotDemoB] zero_draws = some [(0, 0), (1, 0)] ∧
    (((lottery_trace [lotDemoA, lotDemoB] zero_draws).getD []).any
      (fun p => decide (p.2 < p.1))) = true := by
  have htrace : lottery_trace [lotDemoA, lotDemoB] zero_draws = some [(0, 0), (1, 0)] := by
    show (lottery_loop zero_draws 0 [lotDemoA, lotDemoB].length
        (lottery_start [lotDemoA, lotDemoB])).map LotteryState.trace = some [(0, 0), (1, 0)]
    rw [lottery_demo_start]
    decide
  refine ⟨htrace, ?_⟩
  rw [htrace]
  decide

/-- C2 (amended): in every iteration of the selection loop with tickets
remaining, the winner `jk` at the drawn winning index `k` is swapped into
position `i`, the winner's tickets are subtracted from exactly the
cumulative entries in positions `i..k` — and from none at all when the
winner already sits at position `i` — and `total_tickets` drops by the
winner's tickets.  The last cumulative entry stays `≥` the total, so every
later draw still finds a winning index; but the cumulative array is *not*
restored to the prefix sums over not-yet-selected jobs: a later draw's
winning index may precede the current position, re-selecting an
already-placed job (see `lottery_sort_reselects_placed_job`). -/
theorem lottery_step_characterization (draws : Nat → Nat) (fuel i k : Nat)
    (s : LotteryState) (ji jk : Job) (c : Int)
    (hpos : 0 < s.total)
    (hwin : lottery_win_index draws i s = some k)
    (hji : s.jl[i]? = some ji) (hjk : s.jl[k]? = some jk)
    (htk : 1 ≤ jk.tickets)
    (hc : s.cum.getLast? = some c) (hcle : s.total ≤ c) :
    lottery_loop draws i (fuel + 1) s =
      lottery_loop draws (i + 1) fuel (lottery_next i k ji jk s) ∧
    (lottery_next i k ji jk s).total = s.total - jk.tickets ∧
    (lottery_next i k ji jk s).cum =
      (if i = k then s.cum else subIdxRange jk.tickets i k 0 s.cum) ∧
    (∀ c' : Int, (lottery_next i k ji jk s).cum.getLast? = some c' →
      (lottery_next i k ji jk s).total ≤ c') ∧
    (0 < (lottery_next i k ji jk s).total →
      (lottery_win_index draws (i + 1) (lottery_next i k ji jk s)).isSome) := by
  refine ⟨?_, rfl, rfl, lottery_next_last_bound i k s ji jk c htk hc hcle, ?_⟩
  · rw [lottery_loop, if_neg (not_le.mpr hpos), hwin]
    simp only [hji, hjk]
  · intro hpos'
    have hc_ne : s.cum ≠ [] := by
      intro h1
      rw [h1] at hc
      simp at hc
    have hne : (lottery_next i k ji jk s).cum ≠ [] := by
      intro h0
      have hl := lottery_next_cum_length i k s ji jk
      rw [h0] at hl
      exact hc_ne (List.length_eq_zero.mp (by simpa using hl.symm))
    obtain ⟨c', hc'⟩ := Option.isSome_iff_exists.mp (List.getLast?_isSome.mpr hne)
    have hb := lottery_next_last_bound i k s ji jk c htk hc hcle c' hc'
    have hw_le : 1 + (draws (i + 1) : Int) % (lottery_next i k ji jk s).total ≤
        (lottery_next i k ji jk s).total := by
      have := Int.emod_lt_of_pos (draws (i + 1) : Int) hpos'
      omega
    exact firstIdxGe_isSome _ _ c' hc' (le_trans hw_le hb)

/-- The demo loop state, equal to `lottery_start [lotDemoA, lotDemoB]` by
`lottery_demo_start`. -/
def lotDemoState : LotteryState :=
  { jl := [lotDemoA', lotDemoB'], cum := [1, 2], total := 2, trace := [] }

/-- Witness for C2 (amended) at the demo state: iteration 0 draws winning
index 0, the total drops by the winner's one ticket, and the next draw still
finds a winning index. -/
theorem lottery_step_characterization_witness :
    (0 : Int) < lotDemoState.total ∧
    (lottery_next 0 0 lotDemoA' lotDemoA' lotDemoState).total =
      lotDemoState.total - lotDemoA'.tickets ∧
    (lottery_win_index zero_draws 1
      (lottery_next 0 0 lotDemoA' lotDemoA' lotDemoState)).isSome :=
  ⟨by decide,
   (lottery_step_characterization zero_draws 1 0 0 lotDemoState lotDemoA' lotDemoA' 2
      (by decide) (by decide) (by rfl) (by rfl) (by decide) (by decide) (by decide)).2.1,
   (lottery_step_characterization zero_draws 1 0 0 lotDemoState lotDemoA' lotDemoA' 2
      (by decide) (by decide) (by rfl) (by rfl) (by decide) (by decide) (by decide)).2.2.2.2
     (by decide)⟩
